import Mathlib

/-!
Shallow embedding of `src/TSP.c` (a Held-Karp style TSP solver over a
bitmask-indexed memo table) together with theorems checking the
natural-language specification against it.

Machine integers: the C program works with `uint64_t`.  We model values as
`Nat` and perform every addition that the C program performs on `uint64_t`
explicitly modulo `2 ^ 64`.  The sentinel `NO_PATH` is `UINT64_MAX`.

The recursion of `tsp_dp` in C terminates because every recursive call sets
one more bit (below `city_count`) in `visited`.  We make this explicit with a
`fuel` argument; the root wrapper passes `fuel = city_count`, which is enough
because a call chain from the root state `(0, visited = 1)` can add at most
`city_count - 1` further bits, so the zero-fuel branch is never reached.
-/

/-- `NO_PATH` is `UINT64_MAX`: the sentinel for "no edge / no completion". -/
def NO_PATH : Nat := 2 ^ 64 - 1

/-- `MAX_CITIES` from the C source. -/
def MAX_CITIES : Nat := 64

/-- Pointwise update of a two-argument table, modelling `t[i][j] = v`. -/
def upd2 (f : Nat → Nat → Nat) (i j : Nat) (v : Nat) : Nat → Nat → Nat :=
  fun a b => if a = i ∧ b = j then v else f a b

/-- Pointwise update of a two-argument `int` table. -/
def upd2I (f : Nat → Nat → Int) (i j : Nat) (v : Int) : Nat → Nat → Int :=
  fun a b => if a = i ∧ b = j then v else f a b

/-- The mutable tables of `solve_tsp`: the memo table `dp`, the choice table
`next_city`, and an instrumentation `log` recording, most recent first, every
state `(current, visited)` whose candidate scan was actually executed (i.e.
every cache miss).  The `log` does not influence any computed value; it only
makes "how often was this state recomputed" observable, as the specification
suggests for testing memoization. -/
structure DPState where
  dp : Nat → Nat → Nat
  next_city : Nat → Nat → Int
  log : List (Nat × Nat)

/-- The tables as initialized by `solve_tsp`: every `dp` entry is `NO_PATH`,
every `next_city` entry is `-1`. -/
def initState : DPState :=
  { dp := fun _ _ => NO_PATH, next_city := fun _ _ => -1, log := [] }

/-- The candidate scan of `tsp_dp`: the C `for` loop over
`next = 0 .. city_count-1`.  `rec` is the recursive call (it returns the
value together with the updated tables).  The loop state is the incumbent
`(min_cost, best_next_city)` pair, threaded exactly as in the source:
a candidate is eligible if its bit is not set in `visited` and there is an
edge; its cost is the `uint64_t` sum of the edge cost and the recursive
result; the incumbent is replaced only on a strictly smaller cost. -/
def tspLoop (rec : Nat → Nat → DPState → Nat × DPState) (di : Nat → Nat → Nat)
    (current visited : Nat) :
    List Nat → Nat → Int → DPState → Nat × Int × DPState
  | [], min_cost, best_next_city, s => (min_cost, best_next_city, s)
  | next :: rest, min_cost, best_next_city, s =>
    if visited &&& (1 <<< next) = 0 ∧ di current next ≠ NO_PATH then
      let r := rec next (visited ||| (1 <<< next)) s
      let cost := (di current next + r.1) % 2 ^ 64
      if cost < min_cost then
        tspLoop rec di current visited rest cost (Int.ofNat next) r.2
      else
        tspLoop rec di current visited rest min_cost best_next_city r.2
    else
      tspLoop rec di current visited rest min_cost best_next_city s

/-- `tsp_dp` from the C source.  Checks the full-mask base case, then the
memo table (an entry different from `NO_PATH` is a cache hit), otherwise runs
the candidate scan and stores `(min_cost, best_next_city)` into the tables.
`(1 <<< city_count) - 1` models `(1ULL << city_count) - 1`, which in C is
defined only for `city_count ≤ 63`: at `city_count = 64` the shift equals
the width of the type and is undefined behavior.  This definition is
therefore used only below that boundary; the boundary itself is handled by
the checked model (`mainModelChk`, `CUndef.shiftFullWidth`). -/
def tsp_dp (di : Nat → Nat → Nat) (city_count : Nat) :
    Nat → Nat → Nat → DPState → Nat × DPState
  | 0, _, _, s => (NO_PATH, s)
  | fuel + 1, current, visited, s =>
    if visited = (1 <<< city_count) - 1 then (0, s)
    else if s.dp current visited ≠ NO_PATH then (s.dp current visited, s)
    else
      let scan := tspLoop (tsp_dp di city_count fuel) di current visited
        (List.range city_count) NO_PATH (-1)
        { s with log := (current, visited) :: s.log }
      (scan.1,
        { dp := upd2 scan.2.2.dp current visited scan.1,
          next_city := upd2I scan.2.2.next_city current visited scan.2.1,
          log := scan.2.2.log })

/-- The root call `tsp_dp(0, 1, ...)` of `solve_tsp` on freshly initialized
tables, returning the root value together with the final tables. -/
def tsp_dp_root (di : Nat → Nat → Nat) (city_count : Nat) : Nat × DPState :=
  tsp_dp di city_count city_count 0 1 initState

/-- Result of the reconstruction loop of `solve_tsp`: the emitted edges
`(current, next, di current next)` in emission order, the accumulated
`total_cost` (a `uint64_t` sum), and the final `current` / `visited`. -/
structure ReconOut where
  edges : List (Nat × Nat × Nat)
  total_cost : Nat
  final_current : Nat
  final_visited : Nat
deriving DecidableEq

/-- The `while (1)` reconstruction loop of `solve_tsp`: read the choice
table; on `-1` break; otherwise emit the edge, add its cost to `total_cost`
(modulo `2 ^ 64`), set the bit and move on.  Every `next_city` entry written
by `tsp_dp` has its bit clear in the `visited` of its own key, so each
iteration sets a new bit and `city_count` fuel is enough. -/
def reconLoop (di : Nat → Nat → Nat) (nc : Nat → Nat → Int) :
    Nat → Nat → Nat → Nat → ReconOut
  | 0, current, visited, total_cost => ⟨[], total_cost, current, visited⟩
  | fuel + 1, current, visited, total_cost =>
    let nx := nc current visited
    if nx = -1 then ⟨[], total_cost, current, visited⟩
    else
      let next := nx.toNat
      let r := reconLoop di nc fuel next (visited ||| (1 <<< next))
        ((total_cost + di current next) % 2 ^ 64)
      ⟨(current, next, di current next) :: r.edges, r.total_cost,
        r.final_current, r.final_visited⟩

/-- Observable outcome of `solve_tsp`: either the infeasibility message or
the emitted route (edges, printed total, final visited mask). -/
inductive SolveResult where
  | noRoute : SolveResult
  | route (edges : List (Nat × Nat × Nat)) (total_cost : Nat)
      (final_visited : Nat) : SolveResult
deriving DecidableEq

/-- `solve_tsp` from the C source: initialize the tables, run the root
`tsp_dp` call, and either report infeasibility (on `NO_PATH`) or walk the
choice table from `(0, visited = 1)`.  The C function first allocates and
initializes `1ULL << city_count` entries per table row; the model uses total
functions instead, which is faithful exactly when that expression is
defined and satisfiable, i.e. for `city_count ≤ 63`.  At `city_count = 64`
the shift is undefined behavior (and the nominal row size would be `2^64`
entries), so this definition is not applied there — see `mainModelChk` and
`CUndef.shiftFullWidth`. -/
def solve_tsp (city_count : Nat) (di : Nat → Nat → Nat) : SolveResult :=
  let r := tsp_dp_root di city_count
  if r.1 = NO_PATH then SolveResult.noRoute
  else
    let w := reconLoop di r.2.next_city city_count 0 1 0
    SolveResult.route w.edges w.total_cost w.final_visited

/-- The visiting order the printed route describes: the start city followed
by the targets of the emitted edges. -/
def SolveResult.visitOrder : SolveResult → List Nat
  | SolveResult.noRoute => []
  | SolveResult.route edges _ _ => 0 :: edges.map (fun e => e.2.1)

/-!
The input-processing part of `main`: `fgets` into a 100-byte line buffer,
`sscanf(line, "%511[^-]-%511[^:]: %" SCNu64, ...)`, the name-length check,
the first-seen registration of city names, the symmetric matrix writes, and
the post-parse checks.  The input file is modelled as its character stream
(`List Char`); reading the command line and opening the file are outside the
model (a readable file is assumed to be given). -/

/-- One `fgets(line, 100, file)` call: read at most 99 characters, stopping
after a newline; returns the chunk and the remaining stream. -/
def fgetsChunk : Nat → List Char → List Char × List Char
  | 0, cs => ([], cs)
  | _ + 1, [] => ([], [])
  | k + 1, c :: cs =>
    if c = '\n' then ([c], cs)
    else
      let r := fgetsChunk k cs
      (c :: r.1, r.2)

/-- `fgets` with the 100-byte buffer of `main` (99 usable characters). -/
def fgets (cs : List Char) : List Char × List Char :=
  fgetsChunk 99 cs

/-- A `%511[^X]` scanset conversion: at most 511 characters, none equal to
the excluded character.  Returns the matched span and the rest. -/
def takeScan (stop : Char) (cs : List Char) : List Char × List Char :=
  let t := (cs.takeWhile (fun c => c ≠ stop)).take 511
  (t, cs.drop t.length)

/-- Value of a digit string. -/
def digitsToNat (ds : List Char) : Nat :=
  ds.foldl (fun a c => 10 * a + (c.toNat - 48)) 0

/-- `sscanf(line, "%511[^-]-%511[^:]: %" SCNu64, city1, city2, &distance)`,
modelled to return `some (city1, city2, distance)` exactly when the call
returns 3.  A scanset must match at least one character; the literal `-` and
`:` must follow; the blank in the format and the `%SCNu64` conversion skip
any whitespace; at least one digit is required.  An out-of-range value
saturates at `UINT64_MAX` (glibc `strtoumax` behaviour); the optional sign
accepted by `%u` conversions is not modelled (no input considered here uses
it). -/
def scanLine (cs : List Char) : Option (List Char × List Char × Nat) :=
  let p1 := takeScan '-' cs
  if p1.1 = [] then none
  else
    match p1.2 with
    | '-' :: r2 =>
      let p2 := takeScan ':' r2
      if p2.1 = [] then none
      else
        match p2.2 with
        | ':' :: r4 =>
          let r5 := r4.dropWhile (fun c => c.isWhitespace)
          let ds := r5.takeWhile (fun c => c.isDigit)
          if ds = [] then none
          else some (p1.1, p2.1, min (digitsToNat ds) NO_PATH)
        | _ => none
    | _ => none

/-- The parsing state of `main`: the registered city names (the position in
the list is the city index) and the distance matrix. -/
structure ParseState where
  cities : List (List Char)
  di : Nat → Nat → Nat

/-- `main` initializes every `di` entry to `NO_PATH` before parsing. -/
def initParse : ParseState :=
  { cities := [], di := fun _ _ => NO_PATH }

/-- `get_city_index` from the C source: index of the first registered name
equal to `city_name`, or `-1`. -/
def get_city_index (cities : List (List Char)) (city_name : List Char) : Int :=
  match cities.findIdx? (fun c => c = city_name) with
  | some i => Int.ofNat i
  | none => -1

/-- Registration as in `main`: reuse the existing index, otherwise append
the name at the next index.  The append models
`cities[city_count] = ...; city_count++` and is faithful only while
`city_count < MAX_CITIES`: for the 65th distinct name the C store goes past
the end of the 64-pointer array (undefined behavior, and the subsequent
`di` writes leave the 64x64 matrix as well).  This unchecked version is
used only for inputs far below the bound; the boundary is handled by
`registerCityChk` / `mainModelChk` (`CUndef.arrayWriteOOB`). -/
def registerCity (st : ParseState) (name : List Char) : Nat × ParseState :=
  match get_city_index st.cities name with
  | Int.ofNat i => (i, st)
  | _ => (st.cities.length, { st with cities := st.cities ++ [name] })

/-- Result of processing the line chunks. -/
inductive ParseResult where
  | fileError : ParseResult
  | nameLenError : ParseResult
  | ok (st : ParseState) : ParseResult
  | outOfFuel : ParseResult

/-- The body of the `while (fgets(...))` loop of `main` for one chunk:
`sscanf` must return 3, then the 511-character name check runs, then both
names are registered and the edge is stored symmetrically
(`di[i1][i2] = d; di[i2][i1] = d`). -/
def processLine (st : ParseState) (line : List Char) : ParseResult :=
  match scanLine line with
  | none => ParseResult.fileError
  | some (city1, city2, distance) =>
    if 512 ≤ city1.length ∨ 512 ≤ city2.length then ParseResult.nameLenError
    else
      let r1 := registerCity st city1
      let r2 := registerCity r1.2 city2
      ParseResult.ok
        { r2.2 with di := upd2 (upd2 r2.2.di r1.1 r2.1 distance) r2.1 r1.1 distance }

/-- The `while (fgets(...))` loop of `main`.  The fuel is only a termination
device: each chunk consumes at least one character, so fuel exceeding the
stream length never runs out (`parseLoop_no_outOfFuel`). -/
def parseLoop : Nat → ParseState → List Char → ParseResult
  | _, st, [] => ParseResult.ok st
  | 0, _, _ => ParseResult.outOfFuel
  | fuel + 1, st, cs =>
    let r := fgets cs
    match processLine st r.1 with
    | ParseResult.ok st' => parseLoop fuel st' r.2
    | e => e

/-- Observable outcome of `main` up to (but not including) the report that
`solve_tsp` prints: either one of the fatal input errors (exit code 1) or
acceptance, carrying the parsed city count, matrix and names, after which
`solve_tsp` runs and `main` returns 0. -/
inductive MainOutcome where
  | parseFail : MainOutcome
  | nameTooLong : MainOutcome
  | tooManyCities : MainOutcome
  | emptyInput : MainOutcome
  | fuelExhausted : MainOutcome
  | report (city_count : Nat) (di : Nat → Nat → Nat)
      (cities : List (List Char)) : MainOutcome

/-- `main` on a given input character stream: run the parse loop, then the
post-parse checks `city_count > MAX_CITIES` and `city_count == 0`, then hand
over to `solve_tsp`.  This is the idealized semantics in which every array
access is total; it coincides with the C program exactly on runs that stay
within bounds (at most 64 distinct names, and `city_count ≤ 63` when
`solve_tsp` runs).  The 64/65-city boundary, where the C program has
undefined behavior, is decided by the bounds-checked `mainModelChk`
instead. -/
def mainModel (input : List Char) : MainOutcome :=
  match parseLoop (input.length + 1) initParse input with
  | ParseResult.fileError => MainOutcome.parseFail
  | ParseResult.nameLenError => MainOutcome.nameTooLong
  | ParseResult.outOfFuel => MainOutcome.fuelExhausted
  | ParseResult.ok st =>
    if MAX_CITIES < st.cities.length then MainOutcome.tooManyCities
    else if st.cities.length = 0 then MainOutcome.emptyInput
    else MainOutcome.report st.cities.length st.di st.cities

/-- Exit code of the process for each outcome. -/
def exitCode : MainOutcome → Nat
  | MainOutcome.report _ _ _ => 0
  | _ => 1

/-- Name of city `i` as printed. -/
def nameAt (cities : List (List Char)) (i : Nat) : String :=
  String.mk (cities.getD i [])

/-- The stdout lines `solve_tsp` prints for a result. -/
def renderRoute (cities : List (List Char)) : SolveResult → List String
  | SolveResult.noRoute => ["No valid TSP route found."]
  | SolveResult.route edges total_cost _ =>
    "We will visit the cities in the following order:" ::
      edges.map (fun e =>
        nameAt cities e.1 ++ " -( " ++ Nat.repr e.2.2 ++ " )-> " ++
          nameAt cities e.2.1) ++
      ["Total cost: " ++ Nat.repr total_cost]

/-- The stdout of the whole program: empty on any fatal input error (those
messages go to stderr), otherwise the report of `solve_tsp`. -/
def programOutput : MainOutcome → List String
  | MainOutcome.report city_count di cities =>
    renderRoute cities (solve_tsp city_count di)
  | _ => []

/-- Projection: did `main` reach `solve_tsp`? -/
def MainOutcome.isReport : MainOutcome → Bool
  | MainOutcome.report _ _ _ => true
  | _ => false

/-- Projection: the parsed city count (0 for error outcomes). -/
def MainOutcome.cityCountD : MainOutcome → Nat
  | MainOutcome.report c _ _ => c
  | _ => 0

/-- Projection: the parsed distance matrix (all `NO_PATH` for errors). -/
def MainOutcome.diFun : MainOutcome → Nat → Nat → Nat
  | MainOutcome.report _ di _ => di
  | _ => fun _ _ => NO_PATH

/-- Projection: is the outcome the dedicated name-too-long error? -/
def MainOutcome.isNameTooLong : MainOutcome → Bool
  | MainOutcome.nameTooLong => true
  | _ => false

/-!
Specification-side notions: complete visiting orders and their exact costs,
and the first-minimum characterization of the candidate scan. -/

/-- Exact (unbounded `Nat`) cost of walking from `c` through the listed
cities in order. -/
def chainCost (di : Nat → Nat → Nat) : Nat → List Nat → Nat
  | _, [] => 0
  | c, x :: xs => di c x + chainCost di x xs

/-- Every consecutive pair of the walk from `c` is joined by a real edge. -/
def chainRealB (di : Nat → Nat → Nat) : Nat → List Nat → Bool
  | _, [] => true
  | c, x :: xs => (di c x != NO_PATH) && chainRealB di x xs

/-- All ways to insert `x` into a list. -/
def insertEverywhere (x : Nat) : List Nat → List (List Nat)
  | [] => [[x]]
  | y :: ys => (x :: y :: ys) :: (insertEverywhere x ys).map (fun l => y :: l)

/-- All permutations of a list (structurally recursive, so that membership
facts evaluate). -/
def permsOf : List Nat → List (List Nat)
  | [] => [[]]
  | x :: xs => (permsOf xs).flatMap (insertEverywhere x)

/-- All orderings of the cities `1 .. n-1`: the candidate visiting orders
after the fixed start city `0`. -/
def visitOrders (n : Nat) : List (List Nat) :=
  permsOf ((List.range n).drop 1)

/-- The eligible candidates of one scan, in scan order, paired with the
cost the scan computes for them; the table state is threaded exactly as in
`tspLoop`, so these are precisely the `(next, cost)` pairs that reach the
comparison `cost < min_cost` in the source. -/
def scanPairs (rec : Nat → Nat → DPState → Nat × DPState) (di : Nat → Nat → Nat)
    (current visited : Nat) : List Nat → DPState → List (Nat × Nat) × DPState
  | [], s => ([], s)
  | next :: rest, s =>
    if visited &&& (1 <<< next) = 0 ∧ di current next ≠ NO_PATH then
      let r := rec next (visited ||| (1 <<< next)) s
      let t := scanPairs rec di current visited rest r.2
      ((next, (di current next + r.1) % 2 ^ 64) :: t.1, t.2)
    else
      scanPairs rec di current visited rest s

/-- Minimum of the candidate costs and the incumbent `m0`. -/
def foldMinFrom (m0 : Nat) (pairs : List (Nat × Nat)) : Nat :=
  pairs.foldl (fun m p => min m p.2) m0

/-- The "first minimum wins" choice: if some candidate improves on the
incumbent `m0`, the first candidate achieving the final minimum; otherwise
the incumbent choice `b0`. -/
def bestFrom (m0 : Nat) (b0 : Int) (pairs : List (Nat × Nat)) : Int :=
  if foldMinFrom m0 pairs < m0 then
    match pairs.find? (fun p => p.2 == foldMinFrom m0 pairs) with
    | some q => Int.ofNat q.1
    | none => b0
  else b0

/-!
Concrete inputs used to exercise the claims. -/

/-- Input file `A-B: 5`, `C-C: 1`: three cities, a single real edge `A-B`,
and city `C` without any edge to another city (its only line is a
self-loop), so no complete visiting order exists. -/
def fileAB_CC : List Char := ("A-B: 5\nC-C: 1\n").toList

/-- The matrix parsed from `fileAB_CC`. -/
def diAB : Nat → Nat → Nat := (mainModel fileAB_CC).diFun

/-- Input file whose two edges cost `2 ^ 63` each, so the only complete
visiting order has exact cost `2 ^ 64`, one past `UINT64_MAX`. -/
def fileBig : List Char :=
  ("A-B: 9223372036854775808\nB-C: 9223372036854775808\n").toList

/-- The matrix parsed from `fileBig`. -/
def diBig : Nat → Nat → Nat := (mainModel fileBig).diFun

/-- A one-line input whose first city name is 600 characters long. -/
def fileLongName : List Char :=
  (List.replicate 600 'A') ++ ("-B: 5\n").toList

/-- A one-city input: a single self-loop line. -/
def fileAA : List Char := ("A-A: 5\n").toList

/-- `k` lines `p<i>-q<i>: 1`, registering `2 * k` distinct city names. -/
def capLines (k : Nat) : List Char :=
  (List.range k).foldr (fun i acc =>
    ("p" ++ Nat.repr i ++ "-q" ++ Nat.repr i ++ ": 1\n").toList ++ acc) []

/-- Five cities: a complete graph on `{0, 1, 2, 3}` with unit costs and an
isolated city `4`.  The state `(3, {0,1,2,3})` is reached both via
`0,1,2,3` and via `0,2,1,3`, and its value is `NO_PATH`. -/
def di5 : Nat → Nat → Nat := fun i j =>
  if i ≠ j ∧ i < 4 ∧ j < 4 then 1 else NO_PATH

/-- A tiny recursive-call stand-in for exercising the scan lemmas at a
concrete input: it returns cost 0 and leaves the tables unchanged. -/
def recZero : Nat → Nat → DPState → Nat × DPState := fun _ _ s => (0, s)

/-- A tiny matrix for exercising the scan lemmas: edges `0-1` and `0-2`,
both of cost 5. -/
def diTie : Nat → Nat → Nat := fun i j =>
  if i = 0 ∧ (j = 1 ∨ j = 2) then 5 else NO_PATH

/-- A table state with a single finite memo entry `dp[0][1] = 7`, used to
exercise the memoization theorem at a concrete input. -/
def sWit : DPState :=
  { dp := upd2 (fun _ _ => NO_PATH) 0 1 7, next_city := fun _ _ => -1, log := [] }


/-!
Bounds-checked variant of the input pipeline.  The model above gives the
out-of-range boundary cases defined semantics (unbounded list append, `Nat`
shifts); in the C program those cases are undefined behavior.  The following
variant detects them instead: it is the authority for the 64/65-city
boundary, while the unchecked model is used only where execution stays in
bounds. -/

/-- The two undefined-behavior conditions the C program reaches on
well-formed inputs: `arrayWriteOOB` is the store `cities[city_count] = ...`
with `city_count = MAX_CITIES` — past the end of the 64-pointer array of
`main` — performed while registering the 65th distinct name, during the
parse and hence before the capacity post-check; `shiftFullWidth` is the
evaluation of `1ULL << city_count` with `city_count = 64` (the row size of
the memo allocation in `solve_tsp` and the full-mask constant in `tsp_dp`),
a shift by the full width of the 64-bit type. -/
inductive CUndef where
  | arrayWriteOOB : CUndef
  | shiftFullWidth : CUndef
deriving DecidableEq

/-- Result of the checked parse: as the unchecked one, plus a marker for
runs that hit undefined behavior. -/
inductive ParseResultChk where
  | fileError : ParseResultChk
  | nameLenError : ParseResultChk
  | ok (st : ParseState) : ParseResultChk
  | undef (u : CUndef) : ParseResultChk
  | outOfFuel : ParseResultChk

/-- Bounds-checked registration: as `registerCity`, except that a new name
arriving when `city_count` already equals `MAX_CITIES` means the C stores
out of bounds, so the checked model returns `none`.  While registration
stays in bounds every returned index is at most 63, so the `di[i][j]`
writes that follow are in bounds as well. -/
def registerCityChk (st : ParseState) (name : List Char) :
    Option (Nat × ParseState) :=
  match get_city_index st.cities name with
  | Int.ofNat i => some (i, st)
  | _ =>
    if st.cities.length < MAX_CITIES then
      some (st.cities.length, { st with cities := st.cities ++ [name] })
    else none

/-- Checked line processing: as `processLine`, aborting with
`CUndef.arrayWriteOOB` at the first out-of-bounds registration. -/
def processLineChk (st : ParseState) (line : List Char) : ParseResultChk :=
  match scanLine line with
  | none => ParseResultChk.fileError
  | some (city1, city2, distance) =>
    if 512 ≤ city1.length ∨ 512 ≤ city2.length then ParseResultChk.nameLenError
    else
      match registerCityChk st city1 with
      | none => ParseResultChk.undef CUndef.arrayWriteOOB
      | some (i1, st1) =>
        match registerCityChk st1 city2 with
        | none => ParseResultChk.undef CUndef.arrayWriteOOB
        | some (i2, st2) =>
          ParseResultChk.ok
            { st2 with di := upd2 (upd2 st2.di i1 i2 distance) i2 i1 distance }

/-- The checked `while (fgets(...))` loop. -/
def parseLoopChk : Nat → ParseState → List Char → ParseResultChk
  | _, st, [] => ParseResultChk.ok st
  | 0, _, _ => ParseResultChk.outOfFuel
  | fuel + 1, st, cs =>
    let r := fgets cs
    match processLineChk st r.1 with
    | ParseResultChk.ok st' => parseLoopChk fuel st' r.2
    | e => e

/-- Outcome of `main` in the checked model: as `MainOutcome`, plus the
undefined-behavior marker. -/
inductive MainOutcomeChk where
  | parseFail : MainOutcomeChk
  | nameTooLong : MainOutcomeChk
  | tooManyCities : MainOutcomeChk
  | emptyInput : MainOutcomeChk
  | fuelExhausted : MainOutcomeChk
  | undef (u : CUndef) : MainOutcomeChk
  | report (city_count : Nat) (di : Nat → Nat → Nat)
      (cities : List (List Char)) : MainOutcomeChk

/-- `main` in the checked model.  The `tooManyCities` branch is kept from
the source (`if (city_count > MAX_CITIES)`), but it is unreachable: before
`city_count` can exceed 64, the parse has already performed the
out-of-bounds store (`mainModelChk_no_tooMany`).  A parse that completes
with `city_count = 64` passes both post-checks and calls `solve_tsp`, whose
first act — and likewise `tsp_dp`'s full-mask constant — evaluates
`1ULL << 64`: the run is flagged `shiftFullWidth` instead of producing a
report. -/
def mainModelChk (input : List Char) : MainOutcomeChk :=
  match parseLoopChk (input.length + 1) initParse input with
  | ParseResultChk.fileError => MainOutcomeChk.parseFail
  | ParseResultChk.nameLenError => MainOutcomeChk.nameTooLong
  | ParseResultChk.undef u => MainOutcomeChk.undef u
  | ParseResultChk.outOfFuel => MainOutcomeChk.fuelExhausted
  | ParseResultChk.ok st =>
    if MAX_CITIES < st.cities.length then MainOutcomeChk.tooManyCities
    else if st.cities.length = 0 then MainOutcomeChk.emptyInput
    else if MAX_CITIES ≤ st.cities.length then
      MainOutcomeChk.undef CUndef.shiftFullWidth
    else MainOutcomeChk.report st.cities.length st.di st.cities

/-- Projection: the undefined-behavior marker of a checked outcome. -/
def chkUndefTag : MainOutcomeChk → Option CUndef
  | MainOutcomeChk.undef u => some u
  | _ => none

/-- Projection: did the checked run end in the capacity post-check? -/
def chkIsTooMany : MainOutcomeChk → Bool
  | MainOutcomeChk.tooManyCities => true
  | _ => false

/-- Projection: did the checked run reach `solve_tsp` with defined
behavior? -/
def chkIsReport : MainOutcomeChk → Bool
  | MainOutcomeChk.report _ _ _ => true
  | _ => false

/-!
Helper lemmas about the candidate scan. -/

theorem foldMinFrom_le (pairs : List (Nat × Nat)) (m0 : Nat) :
    foldMinFrom m0 pairs ≤ m0 := by
  induction pairs generalizing m0 with
  | nil => simp [foldMinFrom]
  | cons p rest ih =>
    have h : foldMinFrom m0 (p :: rest) = foldMinFrom (min m0 p.2) rest := rfl
    rw [h]
    exact le_trans (ih (min m0 p.2)) (Nat.min_le_left _ _)

theorem foldMinFrom_achieved (pairs : List (Nat × Nat)) (m0 : Nat)
    (h : foldMinFrom m0 pairs < m0) :
    ∃ p ∈ pairs, p.2 = foldMinFrom m0 pairs := by
  induction pairs generalizing m0 with
  | nil => simp [foldMinFrom] at h
  | cons p rest ih =>
    have hcons : foldMinFrom m0 (p :: rest) = foldMinFrom (min m0 p.2) rest := rfl
    by_cases hc : foldMinFrom (min m0 p.2) rest < min m0 p.2
    · obtain ⟨q, hq, he⟩ := ih (min m0 p.2) hc
      exact ⟨q, List.mem_cons_of_mem _ hq, by rw [hcons]; exact he⟩
    · have hle := foldMinFrom_le rest (min m0 p.2)
      have heq : foldMinFrom (min m0 p.2) rest = min m0 p.2 :=
        le_antisymm hle (Nat.le_of_not_lt hc)
      refine ⟨p, List.mem_cons_self _ _, ?_⟩
      rw [hcons, heq] at h ⊢
      omega

theorem bestFrom_cons_lt (m0 : Nat) (b0 : Int) (nx c : Nat)
    (l : List (Nat × Nat)) (hlt : c < m0) :
    bestFrom m0 b0 ((nx, c) :: l) = bestFrom c (Int.ofNat nx) l := by
  have hfold : foldMinFrom m0 ((nx, c) :: l) = foldMinFrom c l := by
    show foldMinFrom (min m0 c) l = foldMinFrom c l
    rw [Nat.min_eq_right (Nat.le_of_lt hlt)]
  have hle := foldMinFrom_le l c
  unfold bestFrom
  rw [hfold]
  rcases Nat.lt_or_ge (foldMinFrom c l) c with hw | hw
  · rw [if_pos (lt_trans hw hlt), if_pos hw]
    have hhead : ¬ ((fun p => p.2 == foldMinFrom c l) ((nx, c) : Nat × Nat)) = true := by
      simp only [beq_iff_eq]
      omega
    rw [@List.find?_cons_of_neg _ (fun p => p.2 == foldMinFrom c l) (nx, c) l hhead]
    obtain ⟨q, hq, he⟩ := foldMinFrom_achieved l c hw
    have hsome : (l.find? (fun p => p.2 == foldMinFrom c l)).isSome := by
      rw [List.find?_isSome]
      exact ⟨q, hq, by simp [he]⟩
    cases hf : l.find? (fun p => p.2 == foldMinFrom c l) with
    | none => rw [hf] at hsome; simp at hsome
    | some q' => rfl
  · have hweq : foldMinFrom c l = c := le_antisymm hle hw
    rw [if_pos (by omega), if_neg (by omega)]
    have hhead : ((fun p => p.2 == foldMinFrom c l) ((nx, c) : Nat × Nat)) = true := by
      simp [hweq]
    rw [@List.find?_cons_of_pos _ (fun p => p.2 == foldMinFrom c l) (nx, c) l hhead]

theorem bestFrom_cons_ge (m0 : Nat) (b0 : Int) (nx c : Nat)
    (l : List (Nat × Nat)) (hge : m0 ≤ c) :
    bestFrom m0 b0 ((nx, c) :: l) = bestFrom m0 b0 l := by
  have hfold : foldMinFrom m0 ((nx, c) :: l) = foldMinFrom m0 l := by
    show foldMinFrom (min m0 c) l = foldMinFrom m0 l
    rw [Nat.min_eq_left hge]
  have hle := foldMinFrom_le l m0
  unfold bestFrom
  rw [hfold]
  rcases Nat.lt_or_ge (foldMinFrom m0 l) m0 with hw | hw
  · rw [if_pos hw, if_pos hw]
    have hhead : ¬ ((fun p => p.2 == foldMinFrom m0 l) ((nx, c) : Nat × Nat)) = true := by
      simp only [beq_iff_eq]
      omega
    rw [@List.find?_cons_of_neg _ (fun p => p.2 == foldMinFrom m0 l) (nx, c) l hhead]
  · rw [if_neg (by omega), if_neg (by omega)]

theorem tspLoop_eq_fold (rec : Nat → Nat → DPState → Nat × DPState)
    (di : Nat → Nat → Nat) (current visited : Nat) (cands : List Nat) :
    ∀ (m0 : Nat) (b0 : Int) (s : DPState),
    tspLoop rec di current visited cands m0 b0 s =
      (foldMinFrom m0 (scanPairs rec di current visited cands s).1,
       bestFrom m0 b0 (scanPairs rec di current visited cands s).1,
       (scanPairs rec di current visited cands s).2) := by
  induction cands with
  | nil => intro m0 b0 s; simp [tspLoop, scanPairs, foldMinFrom, bestFrom]
  | cons next rest ih =>
    intro m0 b0 s
    by_cases hg : visited &&& (1 <<< next) = 0 ∧ di current next ≠ NO_PATH
    · simp only [tspLoop, scanPairs, if_pos hg]
      set cost := (di current next + (rec next (visited ||| (1 <<< next)) s).1) % 2 ^ 64
        with hcost
      by_cases hlt : cost < m0
      · rw [if_pos hlt, ih]
        have h1 : foldMinFrom m0 ((next, cost) ::
            (scanPairs rec di current visited rest
              (rec next (visited ||| (1 <<< next)) s).2).1) =
            foldMinFrom cost (scanPairs rec di current visited rest
              (rec next (visited ||| (1 <<< next)) s).2).1 := by
          show foldMinFrom (min m0 cost) _ = _
          rw [Nat.min_eq_right (Nat.le_of_lt hlt)]
        rw [h1, bestFrom_cons_lt _ _ _ _ _ hlt]
      · rw [if_neg hlt, ih]
        have h1 : foldMinFrom m0 ((next, cost) ::
            (scanPairs rec di current visited rest
              (rec next (visited ||| (1 <<< next)) s).2).1) =
            foldMinFrom m0 (scanPairs rec di current visited rest
              (rec next (visited ||| (1 <<< next)) s).2).1 := by
          show foldMinFrom (min m0 cost) _ = _
          rw [Nat.min_eq_left (Nat.le_of_not_lt hlt)]
        rw [h1, bestFrom_cons_ge _ _ _ _ _ (Nat.le_of_not_lt hlt)]
    · simp only [tspLoop, scanPairs, if_neg hg]
      exact ih m0 b0 s

theorem scanPairs_fst_sublist (rec : Nat → Nat → DPState → Nat × DPState)
    (di : Nat → Nat → Nat) (current visited : Nat) (cands : List Nat) :
    ∀ s : DPState,
    ((scanPairs rec di current visited cands s).1.map Prod.fst).Sublist cands := by
  induction cands with
  | nil => intro s; simp [scanPairs]
  | cons next rest ih =>
    intro s
    by_cases hg : visited &&& (1 <<< next) = 0 ∧ di current next ≠ NO_PATH
    · simp only [scanPairs, if_pos hg, List.map_cons]
      exact List.Sublist.cons₂ _ (ih _)
    · simp only [scanPairs, if_neg hg]
      exact List.Sublist.cons _ (ih s)

theorem find?_first_min {l : List (Nat × Nat)} {q : Nat × Nat}
    {pr : Nat × Nat → Bool} (hpw : (l.map Prod.fst).Pairwise (· < ·))
    (hf : l.find? pr = some q) :
    ∀ p ∈ l, pr p = true → q.1 ≤ p.1 := by
  induction l with
  | nil => simp at hf
  | cons a t ih =>
    rw [List.map_cons, List.pairwise_cons] at hpw
    by_cases ha : pr a
    · rw [List.find?_cons_of_pos _ ha] at hf
      have hq : a = q := by injection hf
      intro p hp _
      rcases List.mem_cons.1 hp with rfl | hp
      · rw [← hq]
      · have hlt := hpw.1 p.1 (List.mem_map_of_mem _ hp)
        rw [← hq]
        exact Nat.le_of_lt hlt
    · rw [List.find?_cons_of_neg _ (by simpa using ha)] at hf
      intro p hp hpr
      rcases List.mem_cons.1 hp with rfl | hp
      · rw [hpr] at ha; contradiction
      · exact ih hpw.2 hf p hp hpr

/-!
Helper lemmas about the memo table. -/

theorem tspLoop_dp_stable (rec : Nat → Nat → DPState → Nat × DPState)
    (di : Nat → Nat → Nat) (current visited a b w : Nat)
    (hrec : ∀ c v s, s.dp a b = w → ((rec c v s).2).dp a b = w) :
    ∀ (cands : List Nat) (m0 : Nat) (b0 : Int) (s : DPState), s.dp a b = w →
      ((tspLoop rec di current visited cands m0 b0 s).2.2).dp a b = w := by
  intro cands
  induction cands with
  | nil => intro m0 b0 s hs; exact hs
  | cons next rest ih =>
    intro m0 b0 s hs
    by_cases hg : visited &&& (1 <<< next) = 0 ∧ di current next ≠ NO_PATH
    · simp only [tspLoop, if_pos hg]
      by_cases hlt : (di current next +
          (rec next (visited ||| (1 <<< next)) s).1) % 2 ^ 64 < m0
      · rw [if_pos hlt]
        exact ih _ _ _ (hrec _ _ _ hs)
      · rw [if_neg hlt]
        exact ih _ _ _ (hrec _ _ _ hs)
    · simp only [tspLoop, if_neg hg]
      exact ih _ _ _ hs

theorem tsp_dp_dp_stable (di : Nat → Nat → Nat) (city_count a b w : Nat)
    (hw : w ≠ NO_PATH) :
    ∀ (fuel current visited : Nat) (s : DPState), s.dp a b = w →
      ((tsp_dp di city_count fuel current visited s).2).dp a b = w := by
  intro fuel
  induction fuel with
  | zero => intro current visited s hs; exact hs
  | succ fuel ih =>
    intro current visited s hs
    simp only [tsp_dp]
    by_cases h1 : visited = (1 <<< city_count) - 1
    · rw [if_pos h1]; exact hs
    · rw [if_neg h1]
      by_cases h2 : s.dp current visited ≠ NO_PATH
      · rw [if_pos h2]; exact hs
      · rw [if_neg h2]
        have hloop := tspLoop_dp_stable (tsp_dp di city_count fuel) di current
          visited a b w (fun c v s' hs' => ih c v s' hs')
          (List.range city_count) NO_PATH (-1)
          { s with log := (current, visited) :: s.log } hs
        show (upd2 _ current visited _) a b = w
        unfold upd2
        have hne : ¬(a = current ∧ b = visited) := by
          rintro ⟨rfl, rfl⟩
          rw [hs] at h2
          exact h2 hw
        rw [if_neg hne]
        exact hloop

/-!
Helper lemmas showing that the 511-character name check of `main` is
unreachable: `sscanf`'s `%511[...]` widths already cap both names, so the
check `strlen(...) >= 512` can never fire (independently even of the
99-character `fgets` buffer, which caps them further). -/

theorem takeScan_fst_length_le (stop : Char) (cs : List Char) :
    (takeScan stop cs).1.length ≤ 511 := by
  simp only [takeScan, List.length_take]
  omega

theorem scanLine_name_short (cs c1 c2 : List Char) (d : Nat)
    (h : scanLine cs = some (c1, c2, d)) :
    c1.length ≤ 511 ∧ c2.length ≤ 511 := by
  unfold scanLine at h
  dsimp only at h
  split at h
  · exact absurd h (by simp)
  · split at h
    · split at h
      · exact absurd h (by simp)
      · split at h
        · split at h
          · exact absurd h (by simp)
          · rw [Option.some_inj] at h
            simp only [Prod.mk.injEq] at h
            obtain ⟨h1, h2, _⟩ := h
            rw [← h1, ← h2]
            exact ⟨takeScan_fst_length_le _ _, takeScan_fst_length_le _ _⟩
        · exact absurd h (by simp)
    · exact absurd h (by simp)

theorem processLine_no_nameLenError (st : ParseState) (line : List Char) :
    ∀ r, processLine st line = r → r ≠ ParseResult.nameLenError := by
  intro r hr
  unfold processLine at hr
  cases hS : scanLine line with
  | none => rw [hS] at hr; rw [← hr]; intro hc; cases hc
  | some t =>
    obtain ⟨c1, c2, d⟩ := t
    rw [hS] at hr
    dsimp only at hr
    have hlen := scanLine_name_short line c1 c2 d hS
    rw [if_neg (by omega)] at hr
    rw [← hr]
    intro hc
    cases hc

theorem parseLoop_no_nameLenError :
    ∀ (fuel : Nat) (st : ParseState) (cs : List Char),
      parseLoop fuel st cs ≠ ParseResult.nameLenError := by
  intro fuel
  induction fuel with
  | zero =>
    intro st cs
    cases cs with
    | nil => intro hc; cases hc
    | cons c cs => intro hc; cases hc
  | succ fuel ih =>
    intro st cs
    cases cs with
    | nil => intro hc; cases hc
    | cons c cs =>
      simp only [parseLoop]
      cases hP : processLine st (fgets (c :: cs)).1 with
      | ok st' => exact ih st' (fgets (c :: cs)).2
      | fileError => intro hc; cases hc
      | nameLenError => exact absurd hP (by
          intro hc
          exact processLine_no_nameLenError st (fgets (c :: cs)).1 _ hc rfl)
      | outOfFuel => intro hc; cases hc

theorem mainModel_no_nameTooLong (input : List Char) :
    (mainModel input).isNameTooLong = false := by
  unfold mainModel
  cases hp : parseLoop (input.length + 1) initParse input with
  | fileError => rfl
  | nameLenError => exact absurd hp (parseLoop_no_nameLenError _ _ _)
  | outOfFuel => rfl
  | ok st =>
    dsimp only
    by_cases h1 : MAX_CITIES < st.cities.length
    · rw [if_pos h1]; rfl
    · rw [if_neg h1]
      by_cases h2 : st.cities.length = 0
      · rw [if_pos h2]; rfl
      · rw [if_neg h2]; rfl


/-!
Helper lemmas for the checked model: registration keeps the city count
within `MAX_CITIES`, so the capacity post-check can never fire — the
out-of-bounds store comes first. -/

theorem registerCityChk_le (st : ParseState) (name : List Char) (i : Nat)
    (st' : ParseState) (h : registerCityChk st name = some (i, st'))
    (hle : st.cities.length ≤ MAX_CITIES) : st'.cities.length ≤ MAX_CITIES := by
  unfold registerCityChk at h
  split at h
  · rw [Option.some_inj] at h
    cases h
    exact hle
  · split at h
    · rw [Option.some_inj] at h
      cases h
      simp only [List.length_append, List.length_cons, List.length_nil]
      omega
    · cases h

theorem processLineChk_le (st : ParseState) (line : List Char) (st' : ParseState)
    (h : processLineChk st line = ParseResultChk.ok st')
    (hle : st.cities.length ≤ MAX_CITIES) : st'.cities.length ≤ MAX_CITIES := by
  unfold processLineChk at h
  cases hS : scanLine line with
  | none => rw [hS] at h; cases h
  | some t =>
    obtain ⟨c1, c2, d⟩ := t
    rw [hS] at h
    dsimp only at h
    split at h
    · cases h
    · cases hr1 : registerCityChk st c1 with
      | none => rw [hr1] at h; cases h
      | some p1 =>
        obtain ⟨i1, st1⟩ := p1
        rw [hr1] at h
        dsimp only at h
        cases hr2 : registerCityChk st1 c2 with
        | none => rw [hr2] at h; cases h
        | some p2 =>
          obtain ⟨i2, st2⟩ := p2
          rw [hr2] at h
          dsimp only at h
          cases h
          exact registerCityChk_le st1 c2 i2 st2 hr2
            (registerCityChk_le st c1 i1 st1 hr1 hle)

theorem parseLoopChk_le :
    ∀ (fuel : Nat) (st : ParseState) (cs : List Char) (st' : ParseState),
      parseLoopChk fuel st cs = ParseResultChk.ok st' →
      st.cities.length ≤ MAX_CITIES → st'.cities.length ≤ MAX_CITIES := by
  intro fuel
  induction fuel with
  | zero =>
    intro st cs st' h hle
    cases cs with
    | nil => cases h; exact hle
    | cons c cs => cases h
  | succ fuel ih =>
    intro st cs st' h hle
    cases cs with
    | nil => cases h; exact hle
    | cons c cs =>
      simp only [parseLoopChk] at h
      cases hP : processLineChk st (fgets (c :: cs)).1 with
      | ok st1 =>
        rw [hP] at h
        exact ih st1 (fgets (c :: cs)).2 st' h
          (processLineChk_le st (fgets (c :: cs)).1 st1 hP hle)
      | fileError => rw [hP] at h; cases h
      | nameLenError => rw [hP] at h; cases h
      | undef u => rw [hP] at h; cases h
      | outOfFuel => rw [hP] at h; cases h

theorem mainModelChk_no_tooMany (input : List Char) :
    chkIsTooMany (mainModelChk input) = false := by
  unfold mainModelChk
  cases hp : parseLoopChk (input.length + 1) initParse input with
  | fileError => rfl
  | nameLenError => rfl
  | undef u => rfl
  | outOfFuel => rfl
  | ok st =>
    dsimp only
    have hle : st.cities.length ≤ MAX_CITIES :=
      parseLoopChk_le (input.length + 1) initParse input st hp (by decide)
    rw [if_neg (Nat.not_lt.mpr hle)]
    by_cases h2 : st.cities.length = 0
    · rw [if_pos h2]; rfl
    · rw [if_neg h2]
      by_cases h3 : MAX_CITIES ≤ st.cities.length
      · rw [if_pos h3]; rfl
      · rw [if_neg h3]; rfl

/-!
The claim theorems. -/

/-- C1: the claim states that the root `tsp_dp` call returns the minimum,
over all orderings of the remaining cities whose consecutive pairs are all
joined by real edges, of the summed edge costs, and returns `NO_PATH`
exactly when no such ordering exists.  On the parsed input `A-B: 5`,
`C-C: 1` (three cities, city `C` without an edge to any other city) no
complete ordering has all-real edges, so the claim demands `NO_PATH`; the
code instead returns `4 = (5 + NO_PATH) % 2 ^ 64`, because the candidate
scan adds a `NO_PATH` recursive subresult to an edge cost without checking
it.  The code contradicts the specified contract: a code bug. -/
theorem C1_root_value_not_min_over_orders :
    (mainModel fileAB_CC).isReport = true ∧
    (mainModel fileAB_CC).cityCountD = 3 ∧
    ((visitOrders 3).all fun l => !(chainRealB diAB 0 l)) = true ∧
    (tsp_dp_root diAB 3).1 = 4 ∧ 4 < NO_PATH := by decide

/-- C2: the claim states that whenever the root result is not `NO_PATH`,
the printed total equals the sum of the emitted edge costs and that sum
equals the root result.  On the graph parsed from `A-B: 5`, `C-C: 1` the
root result is `4` but the reconstruction emits the single edge
`(0, 1, 5)` and prints total `5`: the printed total does equal the emitted
sum, but differs from the root value, violating the specified sum law. -/
theorem C2_total_differs_from_root_result :
    solve_tsp 3 diAB = SolveResult.route [(0, 1, 5)] 5 3 ∧
    ((([(0, 1, 5)] : List (Nat × Nat × Nat)).map fun e => e.2.2).sum = 5) ∧
    (tsp_dp_root diAB 3).1 = 4 := by decide

/-- C3 counterexample: the claim states every state is computed at most
once.  On five cities with a complete unit-cost graph on `{0,1,2,3}` and an
isolated city `4`, the state `(3, {0,1,2,3})` (mask 15) has value
`NO_PATH`; it is stored as `NO_PATH`, which is indistinguishable from an
absent entry, so the cache check fails on the second visit and the state's
scan is executed twice. -/
theorem C3_nopath_state_recomputed :
    (tsp_dp_root di5 5).2.log.count ((3, 15) : Nat × Nat) = 2 := by decide

/-- C3 amended: entries written with a finite (non-`NO_PATH`) value are
permanent — no later call changes them — and any call on a state whose memo
entry is finite (and which is not the full-mask base case) returns the
cached value immediately, leaving the tables, including the computation
log, unchanged.  States whose value is `NO_PATH` are outside this
guarantee: their stored entry equals the "uncomputed" marker, so they are
rescanned on every visit (see the counterexample). -/
theorem C3_finite_memo_permanent (di : Nat → Nat → Nat)
    (city_count fuel current visited a b w : Nat) (s : DPState)
    (hw : w ≠ NO_PATH) :
    (s.dp a b = w → ((tsp_dp di city_count fuel current visited s).2).dp a b = w)
    ∧ (s.dp current visited = w → visited ≠ (1 <<< city_count) - 1 → 0 < fuel →
        tsp_dp di city_count fuel current visited s = (s.dp current visited, s)) := by
  constructor
  · intro hs
    exact tsp_dp_dp_stable di city_count a b w hw fuel current visited s hs
  · intro hs h1 hf
    cases fuel with
    | zero => exact absurd hf (Nat.lt_irrefl 0)
    | succ fuel =>
      simp only [tsp_dp]
      rw [if_neg h1, if_pos (by rw [hs]; exact hw)]

/-- Witness for `C3_finite_memo_permanent`: with the single finite entry
`dp[0][1] = 7` and no edges, the call on `(0, 1)` returns the cached `7`
with the tables unchanged, and the entry survives. -/
theorem C3_finite_memo_permanent_witness :
    tsp_dp (fun _ _ => NO_PATH) 3 3 0 1 sWit = (7, sWit) ∧
    ((tsp_dp (fun _ _ => NO_PATH) 3 3 0 1 sWit).2).dp 0 1 = 7 := by
  have h := C3_finite_memo_permanent (fun _ _ => NO_PATH) 3 3 0 1 0 1 7 sWit (by decide)
  have hdp : sWit.dp 0 1 = 7 := by decide
  have h2 := h.2 hdp (by decide) (by decide)
  rw [hdp] at h2
  exact ⟨h2, h.1 hdp⟩

/-- C4: the candidate scan examines the cities in ascending index order
(the eligible candidates form a sublist of `List.range city_count`), the
final minimum is the fold of `min` over the incumbent `NO_PATH` and the
computed candidate costs, and whenever some candidate improved on
`NO_PATH`, the recorded best next city is the first — hence, by the
ascending order, smallest-index — candidate achieving that minimum; the
incumbent is replaced only by a strictly smaller cost, so ties keep the
earlier candidate. -/
theorem C4_scan_ascending_first_min (rec : Nat → Nat → DPState → Nat × DPState)
    (di : Nat → Nat → Nat) (current visited city_count : Nat) (s : DPState) :
    tspLoop rec di current visited (List.range city_count) NO_PATH (-1) s =
      (foldMinFrom NO_PATH
        (scanPairs rec di current visited (List.range city_count) s).1,
       bestFrom NO_PATH (-1)
        (scanPairs rec di current visited (List.range city_count) s).1,
       (scanPairs rec di current visited (List.range city_count) s).2)
    ∧ ((scanPairs rec di current visited (List.range city_count) s).1.map
        Prod.fst).Sublist (List.range city_count)
    ∧ (foldMinFrom NO_PATH
        (scanPairs rec di current visited (List.range city_count) s).1 < NO_PATH →
        ∃ q ∈ (scanPairs rec di current visited (List.range city_count) s).1,
          bestFrom NO_PATH (-1)
            (scanPairs rec di current visited (List.range city_count) s).1 =
            Int.ofNat q.1 ∧
          q.2 = foldMinFrom NO_PATH
            (scanPairs rec di current visited (List.range city_count) s).1 ∧
          ∀ p ∈ (scanPairs rec di current visited (List.range city_count) s).1,
            p.2 = foldMinFrom NO_PATH
              (scanPairs rec di current visited (List.range city_count) s).1 →
            q.1 ≤ p.1) := by
  refine ⟨tspLoop_eq_fold rec di current visited (List.range city_count)
    NO_PATH (-1) s,
    scanPairs_fst_sublist rec di current visited (List.range city_count) s, ?_⟩
  intro hlt
  set pl := (scanPairs rec di current visited (List.range city_count) s).1 with hpl
  set v := foldMinFrom NO_PATH pl with hv
  obtain ⟨p0, hp0, he0⟩ := foldMinFrom_achieved pl NO_PATH hlt
  have hsome : (pl.find? (fun p => p.2 == v)).isSome := by
    rw [List.find?_isSome]
    exact ⟨p0, hp0, by simp [he0]⟩
  cases hf : pl.find? (fun p => p.2 == v) with
  | none => rw [hf] at hsome; simp at hsome
  | some q =>
    have hqv : q.2 = v := by
      have := List.find?_some hf
      simpa using this
    have hpw : (pl.map Prod.fst).Pairwise (· < ·) :=
      List.Pairwise.sublist
        (scanPairs_fst_sublist rec di current visited (List.range city_count) s)
        (List.pairwise_lt_range city_count)
    refine ⟨q, List.mem_of_find?_eq_some hf, ?_, hqv, ?_⟩
    · unfold bestFrom
      rw [if_pos hlt, hf]
    · intro p hp hpe
      exact find?_first_min hpw hf p hp (by simp [hpe])

/-- Witness for `C4_scan_ascending_first_min`: with two eligible candidates
`1` and `2` both costing `5`, the scan returns minimum `5` and best next
city `1` — the smaller-index of the tied candidates. -/
theorem C4_scan_ascending_first_min_witness :
    tspLoop recZero diTie 0 1 (List.range 3) NO_PATH (-1) initState =
      (5, 1, initState) := by
  have h := (C4_scan_ascending_first_min recZero diTie 0 1 3 initState).1
  exact h.trans (by rfl)

/-- C5: the claim states that during reconstruction after a non-`NO_PATH`
result, a `-1` choice entry is read only once the visited mask is full,
after exactly `N - 1` emitted edges.  On the graph parsed from `A-B: 5`,
`C-C: 1` the root result is `4` (not `NO_PATH`), yet the walk reads
`next_city[1][{0,1}] = -1` after a single emitted edge, stopping with
visited mask `3` instead of the full mask `7` and with only 1 of the
required 2 edges: the invariant the specification demands does not hold. -/
theorem C5_recon_reads_none_early :
    (tsp_dp_root diAB 3).1 = 4 ∧
    (tsp_dp_root diAB 3).2.next_city 1 3 = -1 ∧
    solve_tsp 3 diAB = SolveResult.route [(0, 1, 5)] 5 3 := by decide

/-- C6: the claim states that a parsed input with no complete visiting
order prints the single line `No valid TSP route found.` and exits 0.  The
input `A-B: 5`, `C-C: 1` parses to three cities with no complete order
(verified over all orderings), and the process does exit 0 — but it prints
a two-line itinerary and a total instead of the infeasibility line,
because the root result is the wrapped value `4` rather than `NO_PATH`. -/
theorem C6_infeasible_reported_as_route :
    (mainModel fileAB_CC).isReport = true ∧
    ((visitOrders 3).all fun l => !(chainRealB diAB 0 l)) = true ∧
    exitCode (mainModel fileAB_CC) = 0 ∧
    programOutput (mainModel fileAB_CC) =
      ["We will visit the cities in the following order:", "A -( 5 )-> B",
        "Total cost: 5"] := by decide


set_option maxRecDepth 40000 in
/-- C7: the claim states that exactly 64 distinct cities are accepted and
solved (exit 0) and that 65 or more are rejected by the capacity post-check
(exit 1, no report).  In the C program both boundary behaviors run into
undefined behavior before the claimed outcome is reached: with 66 distinct
names (33 lines) the 65th registration stores past the end of the
64-pointer `cities` array during the parse, before the post-check can run;
with exactly 64 names (32 lines) the parse and both post-checks complete,
but `solve_tsp` and `tsp_dp` immediately evaluate `1ULL << 64`, a shift by
the full width of the type.  Hence the clean capacity rejection is not a
guaranteed behavior on any input — the checked model never reaches the
`tooManyCities` branch — while an input comfortably below the bound
(32 names) parses and reaches the solver with defined behavior.  The
boundary handling the claim (and the spec) demand is not implemented by the
code: a code bug. -/
theorem C7_boundary_is_undefined_behavior :
    chkUndefTag (mainModelChk (capLines 33)) = some CUndef.arrayWriteOOB ∧
    chkUndefTag (mainModelChk (capLines 32)) = some CUndef.shiftFullWidth ∧
    (∀ input : List Char, chkIsTooMany (mainModelChk input) = false) ∧
    chkIsReport (mainModelChk (capLines 16)) = true := by
  refine ⟨by decide, by decide, mainModelChk_no_tooMany, by decide⟩

/-- C8 counterexample: the claim states that inputs whose achievable total
cost could overflow 64 bits are rejected as fatal.  The input with two
edges of cost `2 ^ 63` is accepted (it reaches the solver and exits 0)
although its only complete real-edge ordering has exact cost `2 ^ 64`,
which exceeds the width; the root result is the wrapped value `0`. -/
theorem C8_overflowing_input_accepted :
    (mainModel fileBig).isReport = true ∧
    exitCode (mainModel fileBig) = 0 ∧
    chainRealB diBig 0 [1, 2] = true ∧
    chainCost diBig 0 [1, 2] = 2 ^ 64 ∧
    (tsp_dp_root diBig 3).1 = 0 := by decide

/-- C8 amended: no overflow rejection exists; the candidate addition is
performed modulo `2 ^ 64`, so on the accepted input above the program
reports the itinerary with the wrapped total `0 = (2^63 + 2^63) % 2^64`
as its numeric answer. -/
theorem C8_addition_wraps_modulo :
    solve_tsp 3 diBig = SolveResult.route [(0, 1, 2 ^ 63), (1, 2, 2 ^ 63)] 0 7 ∧
    (2 ^ 63 + 2 ^ 63) % 2 ^ 64 = 0 := by decide

set_option maxRecDepth 40000 in
/-- C9 counterexample: the claim states a line with a city name longer
than 511 characters fails with the dedicated name-too-long error.  On the
single-line input whose first name has 600 characters, the outcome is the
generic parse failure (`sscanf` cannot match the `-` separator within the
99-character `fgets` chunk), not the name-too-long error. -/
theorem C9_long_name_not_nameTooLong :
    (mainModel fileLongName).isNameTooLong = false ∧
    mainModel fileLongName = MainOutcome.parseFail :=
  ⟨rfl, rfl⟩

set_option maxRecDepth 40000 in
/-- C9 amended: a long city name makes the program fail fatally with the
generic parse error ("Error reading file"), exit code 1 and no report;
the dedicated name-too-long error is unreachable on every input, because
the `%511[...]` scan widths already cap the scanned names at 511
characters, so `strlen(...) >= 512` can never hold. -/
theorem C9_long_name_generic_parse_error :
    (∀ input : List Char, (mainModel input).isNameTooLong = false) ∧
    mainModel fileLongName = MainOutcome.parseFail ∧
    exitCode (mainModel fileLongName) = 1 ∧
    programOutput (mainModel fileLongName) = [] :=
  ⟨mainModel_no_nameTooLong, rfl, rfl, rfl⟩

/-- C10: for one city the root call hits the full-mask base case at once
(mask `1` is the full mask for `N = 1`) and returns 0 for every distance
matrix; the reconstruction emits no edge and prints total 0, so the
visiting order is just the start city.  The concrete one-city input
`A-A: 5` parses to one city and prints exactly the header and
`Total cost: 0`. -/
theorem C10_single_city_zero_cost (di : Nat → Nat → Nat) :
    (tsp_dp_root di 1).1 = 0 ∧
    solve_tsp 1 di = SolveResult.route [] 0 1 ∧
    (solve_tsp 1 di).visitOrder = [0] ∧
    (mainModel fileAA).cityCountD = 1 ∧
    programOutput (mainModel fileAA) =
      ["We will visit the cities in the following order:", "Total cost: 0"] :=
  ⟨rfl, rfl, rfl, by decide, by decide⟩
